import Mathlib

/-!
Shallow embedding of the lossyq SPSC lossy ring buffer (`src/spsc/mod.rs`,
generation tag width 16, and the `pour` helper of `src/spsc/noloss.rs`).

Machine integers (`usize`) are modelled as `Nat`.  The bit-packing of the
flag words (`<<< 16`, `>>> 16`, `&&& 0xffff`) is carried over literally; the
only place where 64-bit wraparound could diverge from `Nat` is the `seqno`
counter, which in the source is a monotone `fetch_add(1)` counter and cannot
wrap on any physically realizable run, so it is modelled as an unbounded `Nat`.

Atomic operations are modelled sequentially (the state is accessed by one
operation at a time): a `load` reads the stored value, a `compare_and_swap`
compares the stored value with the expected one and stores the new value on
success, returning the previous value.  Fallible `Vec::get_mut` lookups are
modelled with `getElem?` (`xs[i]?`), and the defensive "dodgy thing" fallback branches
of the source are reproduced faithfully.
-/

namespace Lossyq

/-- The ring state (`struct CircularBuffer<T>` in `src/spsc/mod.rs`).
`data` is the slot pool of `2*size+1` optional payload cells, `buffer` the
flag words `(slot_index <<< 16) + generation`, `read_priv` the consumer's
private slot indices, `write_tmp` the producer's scratch slot index and
`max_read` the reader's last observed sequence number. -/
structure CircularBuffer (T : Type) where
  seqno : Nat
  data : List (Option T)
  size : Nat
  buffer : List Nat
  read_priv : List Nat
  write_tmp : Nat
  max_read : Nat

/-- One drain cursor (`struct CircularBufferIterator` in `src/spsc/mod.rs`).
In the source it mutably borrows the pool and shares the consumer's private
index slice; here it carries its own copy of both, and a drain writes the
pool back into the ring state when the cursor is closed. -/
structure CircularBufferIterator (T : Type) where
  data : List (Option T)
  revpos : List Nat
  start : Nat
  count : Nat

/-- `CircularBuffer::new` (`src/spsc/mod.rs:27-57`): sizes that are multiples
of `64*1024` (and the size `0`) are bumped by one, the pool holds `2*size+1`
empty cells, flag word `i` starts as `(1+i) <<< 16` and the consumer owns
slots `1+size+i`. -/
def CircularBuffer.new (T : Type) (size0 : Nat) : CircularBuffer T :=
  let size := if size0 % (64 * 1024) = 0 ∨ size0 = 0 then size0 + 1 else size0
  { seqno := 0
    data := List.replicate (2 * size + 1) none
    size := size
    buffer := (List.range size).map (fun i => (1 + i) <<< 16)
    read_priv := (List.range size).map (fun i => 1 + size + i)
    write_tmp := 0
    max_read := 0 }

/-- The producer's CAS retry loop of `put` (`src/spsc/mod.rs:88-99`), modelled
sequentially.  `cur` is the value currently stored in the flag word,
`expected` the producer's last observed value, `new` the flag word to
install.  The modelled `compare_and_swap` returns the previously stored
value; the loop commits when that value equals `expected`, and otherwise
retries with the returned value as the new expectation.  The result is the
stored flag word, the recovered old slot index, and the number of loop
iterations; `none` models non-termination within the given fuel. -/
def putFlagLoop : Nat → Nat → Nat → Nat → Option (Nat × Nat × Nat)
  | 0, _, _, _ => none
  | fuel + 1, cur, expected, new =>
      let result := cur
      let stored := if cur = expected then new else cur
      if result = expected then
        some (stored, result >>> 16, 1)
      else
        match putFlagLoop fuel stored result new with
        | some (st, op, k) => some (st, op, k + 1)
        | none => none

/-- `CircularBuffer::put` (`src/spsc/mod.rs:59-109`): run the writer callback
on the scratch cell, install the scratch slot into the flag word at
`seqno % size` (taking the previous slot as the new scratch), and bump
`seqno`, returning its pre-increment value.  The two defensive branches
("dodgy thing 1/2") of the source are kept: an out-of-range scratch index
returns the current `seqno` without publishing, and a missing flag word
skips the flag update but still bumps `seqno`.  Sequentially the CAS loop
succeeds on its first attempt (see `putFlagLoop_first_try`), so fuel `1`
suffices. -/
def CircularBuffer.put {T : Type} (cb : CircularBuffer T)
    (setter : Option T → Option T) : CircularBuffer T × Nat :=
  match cb.data[cb.write_tmp]? with
  | none => (cb, cb.seqno)
  | some v =>
    let data := cb.data.set cb.write_tmp (setter v)
    let seqno := cb.seqno
    let pos := seqno % cb.size
    match cb.buffer[pos]? with
    | none => ({ cb with data := data, seqno := seqno + 1 }, seqno)
    | some old_flag =>
      let new_flag := (cb.write_tmp <<< 16) + (seqno &&& 0xffff)
      match putFlagLoop 1 old_flag old_flag new_flag with
      | some (stored, old_pos, _) =>
        ({ cb with data := data,
                   buffer := cb.buffer.set pos stored,
                   write_tmp := old_pos,
                   seqno := seqno + 1 }, seqno)
      | none => ({ cb with data := data, seqno := seqno + 1 }, seqno)

/-- The drain loop of `iter` (`src/spsc/mod.rs:117-152`), recursing on the
walking sequence number.  Returns the final cursor sequence number, the
claim count, and the updated flag words and private indices.  A claim
succeeds when the flag word still carries the expected generation
(`old_flag = chk_flag`, the sequential outcome of the consumer CAS); any
failure, missing index ("dodgy thing 3/4"), or exhausted window breaks the
loop. -/
def iterLoop (size max_read : Nat) :
    Nat → Nat → List Nat → List Nat → Nat × Nat × List Nat × List Nat
  | 0, count, buffer, read_priv => (0, count, buffer, read_priv)
  | seqno + 1, count, buffer, read_priv =>
    if size ≤ count ∨ seqno + 1 ≤ max_read then (seqno + 1, count, buffer, read_priv)
    else
      let pos := seqno % size
      match read_priv[count]? with
      | none => (seqno + 1, count, buffer, read_priv)
      | some r =>
        match buffer[pos]? with
        | none => (seqno + 1, count, buffer, read_priv)
        | some old_flag =>
          let old_pos := old_flag >>> 16
          let old_seq := old_flag &&& 0xffff
          let chk_flag := (old_pos <<< 16) + (seqno &&& 0xffff)
          let new_flag := (r <<< 16) + (old_seq &&& 0xffff)
          if old_flag = chk_flag then
            iterLoop size max_read seqno (count + 1)
              (buffer.set pos new_flag) (read_priv.set count old_pos)
          else (seqno + 1, count, buffer, read_priv)

/-- `CircularBuffer::iter` (`src/spsc/mod.rs:111-161`): snapshot `seqno`,
advance `max_read` to it up front, walk backward claiming up to `size`
slots, and hand out a cursor over the claimed slots. -/
def CircularBuffer.iter {T : Type} (cb : CircularBuffer T) :
    CircularBuffer T × CircularBufferIterator T :=
  let seq_now := cb.seqno
  let r := iterLoop cb.size cb.max_read seq_now 0 cb.buffer cb.read_priv
  ({ cb with max_read := seq_now, buffer := r.2.2.1, read_priv := r.2.2.2 },
   { data := cb.data, revpos := r.2.2.2, start := r.1, count := r.2.1 })

/-- `Iterator::next` for the cursor (`src/spsc/mod.rs:163-179`): while
`count > 0`, decrement `count`, increment `start`, and move the payload out
of the pool cell `revpos[count]`, leaving that cell empty. -/
def CircularBufferIterator.next {T : Type} (it : CircularBufferIterator T) :
    Option T × CircularBufferIterator T :=
  if 0 < it.count then
    let count := it.count - 1
    let pos := it.revpos[count]?.getD 0
    (it.data[pos]?.getD none,
     { it with count := count, start := it.start + 1,
               data := it.data.set pos none })
  else (none, it)

/-- `IterRange::get_range` (`src/spsc/mod.rs:182-184`). -/
def CircularBufferIterator.get_range {T : Type} (it : CircularBufferIterator T) :
    Nat × Nat :=
  (it.start, it.start + it.count)

/-- `IterRange::next_id` (`src/spsc/mod.rs:185-191`). -/
def CircularBufferIterator.next_id {T : Type} (it : CircularBufferIterator T) :
    Option Nat :=
  if 0 < it.count then some it.start else none

/-- Call `next` up to `k` times, recording for each successful call the item
id announced by `next_id` together with the yielded payload, and stopping as
soon as `next_id` reports the cursor exhausted (this is how the tests and
the `pour` consumers drive the cursor). -/
def nextOut {T : Type} : Nat → CircularBufferIterator T →
    CircularBufferIterator T × List (Nat × Option T)
  | 0, it => (it, [])
  | k + 1, it =>
    match it.next_id with
    | none => (it, [])
    | some i =>
      let r := it.next
      let rest := nextOut k r.2
      (rest.1, (i, r.1) :: rest.2)

/-- One interaction of the consumer: call `iter`, consume at most `k` items
from the cursor, and drop the cursor (writing the pool back).  Returns the
new ring state and the list of item ids yielded. -/
def drainOp {T : Type} (cb : CircularBuffer T) (k : Nat) :
    CircularBuffer T × List Nat :=
  let p := cb.iter
  let q := nextOut k p.2
  ({ p.1 with data := q.1.data }, q.2.map Prod.fst)

/-- The operations that drive a channel between quiescent states: a producer
`put` with an arbitrary writer callback, or a consumer drain pass consuming
at most `k` items. -/
inductive Op (T : Type) where
  | put (f : Option T → Option T)
  | drain (k : Nat)

/-- Apply one operation to the ring state. -/
def applyOp {T : Type} (cb : CircularBuffer T) : Op T → CircularBuffer T
  | .put f => (cb.put f).1
  | .drain k => (drainOp cb k).1

/-- Run a sequence of operations from a ring state. -/
def runOps {T : Type} (cb : CircularBuffer T) (ops : List (Op T)) :
    CircularBuffer T :=
  ops.foldl applyOp cb

/-- All item ids yielded by the drains of a run, in order. -/
def runIds {T : Type} : CircularBuffer T → List (Op T) → List Nat
  | _, [] => []
  | cb, Op.put f :: ops => runIds (cb.put f).1 ops
  | cb, Op.drain k :: ops => (drainOp cb k).2 ++ runIds (drainOp cb k).1 ops

/-- Modelled from the spec: the producer-side `tmp` accessor (spec §4.3.3
"Tmp access") is not among the source files here — only its callers
(`pour` in `src/spsc/noloss.rs` and the tests) are.  Per the spec it lets
the producer inspect or modify its scratch cell and must not advance `seq`
or touch the flags.  The callback acts on the scratch cell in place; the
previous scratch content is returned as well so that a caller's
`mem::swap`-style callback can be expressed. -/
def CircularBuffer.tmp {T : Type} (cb : CircularBuffer T)
    (f : Option T → Option T) : CircularBuffer T × Option T :=
  let old := cb.data[cb.write_tmp]?.getD none
  ({ cb with data := cb.data.set cb.write_tmp (f old) }, old)

/-- `PourResult` (`src/spsc/noloss.rs:9-12`). -/
inductive PourResult where
  | Poured
  | Overflowed
deriving DecidableEq

/-- `pour` (`src/spsc/noloss.rs:14-39`): publish `value` by swapping it into
the scratch cell, abort (`panics` in the source) if the swapped-out content
was unexpectedly non-empty, then swap the scratch cell with `none` via
`tmp`; a non-empty result is handed to the overflow sink and reported as
`Overflowed`.  The result carries the pour outcome, the id returned by the
underlying `put`, the new ring state, and the value handed to the sink (if
any); `Except.error` models the source's `panics`. -/
def pour {T : Type} (value : Option T) (cb : CircularBuffer T) :
    Except String ((PourResult × Nat) × CircularBuffer T × Option T) :=
  let r1 := cb.put (fun _ => value)
  let value1 := match cb.data[cb.write_tmp]? with
    | some old => old
    | none => value
  if value1.isSome then Except.error "value unexpectedly overwritten"
  else
    let r2 := r1.1.tmp (fun _ => none)
    if r2.2.isSome then Except.ok ((PourResult.Overflowed, r1.2), r2.1, r2.2)
    else Except.ok ((PourResult.Poured, r1.2), r2.1, r2.2)

/-- The slot index stored in a flag word. -/
def slotOf (flag : Nat) : Nat := flag >>> 16

/-- The multiset of slot indices stored in the flag words. -/
def slots (buffer : List Nat) : Multiset Nat := ↑(buffer.map slotOf)

/-- Spec invariant I1/P1: the producer scratch index, the consumer's private
indices and the slot indices in the flag words partition the pool index set
`{0, …, 2*size}`. -/
def partitionInv {T : Type} (cb : CircularBuffer T) : Prop :=
  ({cb.write_tmp} : Multiset Nat) + (cb.read_priv : Multiset Nat) + slots cb.buffer
    = Multiset.range (2 * cb.size + 1)

/-- Structural well-formedness of the ring: positive capacity and the three
arrays at their construction lengths. -/
def wfState {T : Type} (cb : CircularBuffer T) : Prop :=
  0 < cb.size ∧ cb.data.length = 2 * cb.size + 1 ∧
    cb.buffer.length = cb.size ∧ cb.read_priv.length = cb.size

/-! ### Flag-word arithmetic -/

theorem and_ffff_lt (s : Nat) : s &&& 0xffff < 65536 := by
  have h : s &&& 0xffff < 2 ^ 16 := Nat.and_lt_two_pow s (by norm_num)
  norm_num at h
  exact h

theorem slotOf_pack (w r : Nat) (h : r < 65536) : slotOf ((w <<< 16) + r) = w := by
  unfold slotOf
  rw [Nat.shiftRight_eq_div_pow, Nat.shiftLeft_eq]
  have h16 : (2 : Nat) ^ 16 = 65536 := by norm_num
  rw [h16, Nat.mul_comm, Nat.mul_add_div (by norm_num), Nat.div_eq_of_lt h]
  omega

theorem slotOf_flag (w s : Nat) : slotOf ((w <<< 16) + (s &&& 0xffff)) = w :=
  slotOf_pack w _ (and_ffff_lt s)

/-! ### List and multiset helpers -/

theorem coe_set_add {α : Type} (b : α) :
    ∀ (l : List α) (i : Nat) (a : α), l[i]? = some a →
      (↑(l.set i b) : Multiset α) + {a} = (↑l : Multiset α) + {b}
  | [], i, a, h => by simp at h
  | x :: l, 0, a, h => by
    simp only [List.getElem?_cons_zero, Option.some.injEq] at h
    cases h
    simp only [List.set]
    rw [← Multiset.cons_coe, ← Multiset.cons_coe, ← Multiset.singleton_add,
      ← Multiset.singleton_add]
    abel
  | x :: l, i + 1, a, h => by
    simp only [List.getElem?_cons_succ] at h
    simp only [List.set]
    rw [← Multiset.cons_coe, ← Multiset.cons_coe, ← Multiset.singleton_add,
      ← Multiset.singleton_add, add_assoc, add_assoc, coe_set_add b l i a h]

/-! ### `putFlagLoop`: the sequential CAS loop succeeds on the first try -/

theorem putFlagLoop_first_try (fuel cur new : Nat) (h : 0 < fuel) :
    putFlagLoop fuel cur cur new = some (new, cur >>> 16, 1) := by
  cases fuel with
  | zero => omega
  | succ n => simp [putFlagLoop]

/-! ### Normal forms of `put` -/

theorem put_eq_of_get {T : Type} (cb : CircularBuffer T) (f : Option T → Option T)
    (v : Option T) (old_flag : Nat)
    (h1 : cb.data[cb.write_tmp]? = some v)
    (h2 : cb.buffer[cb.seqno % cb.size]? = some old_flag) :
    cb.put f =
      ({ cb with data := cb.data.set cb.write_tmp (f v),
                 buffer := cb.buffer.set (cb.seqno % cb.size)
                   ((cb.write_tmp <<< 16) + (cb.seqno &&& 0xffff)),
                 write_tmp := old_flag >>> 16,
                 seqno := cb.seqno + 1 }, cb.seqno) := by
  simp [CircularBuffer.put, h1, h2, putFlagLoop]

theorem put_eq_dodgy1 {T : Type} (cb : CircularBuffer T) (f : Option T → Option T)
    (h1 : cb.data[cb.write_tmp]? = none) :
    cb.put f = (cb, cb.seqno) := by
  simp [CircularBuffer.put, h1]

theorem put_eq_dodgy2 {T : Type} (cb : CircularBuffer T) (f : Option T → Option T)
    (v : Option T)
    (h1 : cb.data[cb.write_tmp]? = some v)
    (h2 : cb.buffer[cb.seqno % cb.size]? = none) :
    cb.put f =
      ({ cb with data := cb.data.set cb.write_tmp (f v), seqno := cb.seqno + 1 },
       cb.seqno) := by
  simp [CircularBuffer.put, h1, h2]

/-! ### The partition invariant (spec I1/P1) is preserved by every operation -/

theorem partition_new (T : Type) (n : Nat) : partitionInv (CircularBuffer.new T n) := by
  unfold partitionInv CircularBuffer.new slots
  simp only [List.map_map]
  have hcomp : slotOf ∘ (fun i => (1 + i) <<< 16) = fun i => 1 + i := by
    funext i
    have h0 := slotOf_pack (1 + i) 0 (by norm_num)
    simpa using h0
  rw [hcomp]
  have h2m : ∀ m : Nat, 2 * m + 1 = 1 + m + m := by omega
  rw [h2m, Multiset.range_add, Multiset.range_add]
  simp only [Multiset.range, Multiset.map_coe, Multiset.coe_add]
  rw [show ({0} : Multiset Nat) = (↑([0] : List Nat) : Multiset Nat) from rfl]
  simp only [Multiset.coe_add]
  rw [Multiset.coe_eq_coe]
  simp only [List.append_assoc]
  exact List.Perm.append_left [0] (List.perm_append_comm)

theorem partition_put {T : Type} (cb : CircularBuffer T) (f : Option T → Option T)
    (h : partitionInv cb) : partitionInv (cb.put f).1 := by
  cases h1 : cb.data[cb.write_tmp]? with
  | none =>
    rw [put_eq_dodgy1 cb f h1]
    exact h
  | some v =>
    cases h2 : cb.buffer[cb.seqno % cb.size]? with
    | none =>
      rw [put_eq_dodgy2 cb f v h1 h2]
      exact h
    | some old_flag =>
      rw [put_eq_of_get cb f v old_flag h1 h2]
      unfold partitionInv at h ⊢
      simp only
      unfold slots at h ⊢
      rw [List.map_set, slotOf_flag]
      have hmap : (cb.buffer.map slotOf)[cb.seqno % cb.size]? = some (slotOf old_flag) := by
        rw [List.getElem?_map, h2]
        rfl
      have hswap := coe_set_add cb.write_tmp (cb.buffer.map slotOf)
        (cb.seqno % cb.size) (slotOf old_flag) hmap
      calc ({slotOf old_flag} : Multiset Nat) + ↑cb.read_priv
            + ↑((cb.buffer.map slotOf).set (cb.seqno % cb.size) cb.write_tmp)
          = (↑cb.read_priv : Multiset Nat)
            + (↑((cb.buffer.map slotOf).set (cb.seqno % cb.size) cb.write_tmp)
               + {slotOf old_flag}) := by abel
        _ = (↑cb.read_priv : Multiset Nat) + (↑(cb.buffer.map slotOf) + {cb.write_tmp}) := by
            rw [hswap]
        _ = ({cb.write_tmp} : Multiset Nat) + ↑cb.read_priv + ↑(cb.buffer.map slotOf) := by abel
        _ = Multiset.range (2 * cb.size + 1) := h

theorem iterLoop_slots (size max_read : Nat) :
    ∀ (seqno count : Nat) (buffer read_priv : List Nat),
      (↑(iterLoop size max_read seqno count buffer read_priv).2.2.2 : Multiset Nat)
        + ↑((iterLoop size max_read seqno count buffer read_priv).2.2.1.map slotOf)
      = (↑read_priv : Multiset Nat) + ↑(buffer.map slotOf) := by
  intro seqno
  induction seqno with
  | zero => intro count buffer read_priv; rfl
  | succ seqno ih =>
    intro count buffer read_priv
    rw [iterLoop]
    split
    · rfl
    · split
      · rfl
      · next r hr =>
        dsimp only
        split
        · rfl
        · next old_flag hb =>
          split
          · next hcas =>
            rw [ih]
            have hmapb : (buffer.map slotOf)[seqno % size]? = some (slotOf old_flag) := by
              rw [List.getElem?_map, hb]
              rfl
            have hb2 := coe_set_add r (buffer.map slotOf) (seqno % size)
              (slotOf old_flag) hmapb
            have hr2 := coe_set_add (old_flag >>> 16) read_priv count r hr
            rw [List.map_set, slotOf_flag]
            have hc : (↑(read_priv.set count (old_flag >>> 16)) : Multiset Nat)
                + ↑((buffer.map slotOf).set (seqno % size) r)
                + ({r} + {old_flag >>> 16})
                = (↑read_priv : Multiset Nat) + ↑(buffer.map slotOf)
                  + ({r} + {old_flag >>> 16}) := by
              calc (↑(read_priv.set count (old_flag >>> 16)) : Multiset Nat)
                    + ↑((buffer.map slotOf).set (seqno % size) r)
                    + ({r} + {old_flag >>> 16})
                  = (↑(read_priv.set count (old_flag >>> 16)) + {r} : Multiset Nat)
                    + (↑((buffer.map slotOf).set (seqno % size) r)
                       + {slotOf old_flag}) := by
                    unfold slotOf
                    abel
                _ = ((↑read_priv : Multiset Nat) + {old_flag >>> 16})
                    + (↑(buffer.map slotOf) + {r}) := by rw [hr2, hb2]
                _ = (↑read_priv : Multiset Nat) + ↑(buffer.map slotOf)
                    + ({r} + {old_flag >>> 16}) := by abel
            exact add_right_cancel hc
          · rfl

theorem partition_iter {T : Type} (cb : CircularBuffer T)
    (h : partitionInv cb) : partitionInv (cb.iter).1 := by
  unfold partitionInv at h ⊢
  unfold CircularBuffer.iter
  simp only
  unfold slots at h ⊢
  rw [show ∀ a b c : Multiset Nat, a + b + c = a + (b + c) from fun a b c => add_assoc a b c,
    iterLoop_slots, ← add_assoc]
  exact h

theorem partition_drainOp {T : Type} (cb : CircularBuffer T) (k : Nat)
    (h : partitionInv cb) : partitionInv (drainOp cb k).1 := by
  have h2 := partition_iter cb h
  unfold partitionInv at h2 ⊢
  exact h2

theorem partition_applyOp {T : Type} (cb : CircularBuffer T) (op : Op T)
    (h : partitionInv cb) : partitionInv (applyOp cb op) := by
  cases op with
  | put f => exact partition_put cb f h
  | drain k => exact partition_drainOp cb k h

theorem partition_runOps {T : Type} :
    ∀ (ops : List (Op T)) (cb : CircularBuffer T),
      partitionInv cb → partitionInv (runOps cb ops)
  | [], _, h => h
  | op :: ops, cb, h =>
    partition_runOps ops (applyOp cb op) (partition_applyOp cb op h)

/-! ### Quantitative behaviour of the drain loop -/

theorem iterLoop_spec (size max_read : Nat) :
    ∀ (seqno count : Nat) (buffer read_priv : List Nat),
      (iterLoop size max_read seqno count buffer read_priv).1
          + (iterLoop size max_read seqno count buffer read_priv).2.1
        = seqno + count ∧
      count ≤ (iterLoop size max_read seqno count buffer read_priv).2.1 ∧
      (count ≤ size → (iterLoop size max_read seqno count buffer read_priv).2.1 ≤ size) ∧
      (count < (iterLoop size max_read seqno count buffer read_priv).2.1 →
        max_read ≤ (iterLoop size max_read seqno count buffer read_priv).1) := by
  intro seqno
  induction seqno with
  | zero =>
    intro count buffer read_priv
    refine ⟨rfl, le_refl _, fun h => h, fun h => absurd h (lt_irrefl _)⟩
  | succ seqno ih =>
    intro count buffer read_priv
    rw [iterLoop]
    split
    · next hguard =>
      refine ⟨rfl, le_refl _, fun h => h, fun h => absurd h (lt_irrefl _)⟩
    · next hguard =>
      split
      · refine ⟨rfl, le_refl _, fun h => h, fun h => absurd h (lt_irrefl _)⟩
      · next r hr =>
        dsimp only
        split
        · refine ⟨rfl, le_refl _, fun h => h, fun h => absurd h (lt_irrefl _)⟩
        · next old_flag hb =>
          split
          · next hcas =>
            obtain ⟨hsum, hmono, hbound, hstart⟩ :=
              ih (count + 1) (buffer.set (seqno % size) _) (read_priv.set count _)
            refine ⟨by omega, by omega, fun hcs => hbound (by omega), fun hlt => ?_⟩
            by_cases hc1 : count + 1 <
                (iterLoop size max_read seqno (count + 1)
                  (buffer.set (seqno % size) (r <<< 16 + (old_flag &&& 0xffff &&& 0xffff)))
                  (read_priv.set count (old_flag >>> 16))).2.1
            · exact hstart hc1
            · -- the recursive call made no further claims, so its start is `seqno`
              -- and the guard gives `max_read ≤ seqno`
              omega
          · next hcas =>
            refine ⟨rfl, le_refl _, fun h => h, fun h => absurd h (lt_irrefl _)⟩

/-! ### Structural well-formedness is preserved -/

theorem iterLoop_lengths (size max_read : Nat) :
    ∀ (seqno count : Nat) (buffer read_priv : List Nat),
      (iterLoop size max_read seqno count buffer read_priv).2.2.1.length = buffer.length ∧
      (iterLoop size max_read seqno count buffer read_priv).2.2.2.length = read_priv.length := by
  intro seqno
  induction seqno with
  | zero => intro count buffer read_priv; exact ⟨rfl, rfl⟩
  | succ seqno ih =>
    intro count buffer read_priv
    rw [iterLoop]
    split
    · exact ⟨rfl, rfl⟩
    · split
      · exact ⟨rfl, rfl⟩
      · next r hr =>
        dsimp only
        split
        · exact ⟨rfl, rfl⟩
        · next old_flag hb =>
          split
          · next hcas =>
            obtain ⟨hb1, hr1⟩ := ih (count + 1) (buffer.set (seqno % size) _)
              (read_priv.set count _)
            simp only [List.length_set] at hb1 hr1
            exact ⟨hb1, hr1⟩
          · exact ⟨rfl, rfl⟩

theorem next_data_length {T : Type} (it : CircularBufferIterator T) :
    (it.next).2.data.length = it.data.length := by
  unfold CircularBufferIterator.next
  split
  · simp [List.length_set]
  · rfl

theorem nextOut_data_length {T : Type} :
    ∀ (k : Nat) (it : CircularBufferIterator T),
      (nextOut k it).1.data.length = it.data.length
  | 0, it => rfl
  | k + 1, it => by
    unfold nextOut
    cases hid : it.next_id with
    | none => rfl
    | some i =>
      dsimp only
      rw [nextOut_data_length k it.next.2, next_data_length]

theorem wfState_new (T : Type) (n : Nat) : wfState (CircularBuffer.new T n) := by
  unfold wfState CircularBuffer.new
  refine ⟨?_, by simp, by simp, by simp⟩
  dsimp only
  split <;> omega

theorem wfState_put {T : Type} (cb : CircularBuffer T) (f : Option T → Option T)
    (h : wfState cb) : wfState (cb.put f).1 := by
  obtain ⟨hs, hd, hb, hr⟩ := h
  cases h1 : cb.data[cb.write_tmp]? with
  | none =>
    rw [put_eq_dodgy1 cb f h1]
    exact ⟨hs, hd, hb, hr⟩
  | some v =>
    cases h2 : cb.buffer[cb.seqno % cb.size]? with
    | none =>
      rw [put_eq_dodgy2 cb f v h1 h2]
      refine ⟨hs, ?_, hb, hr⟩
      simpa using hd
    | some old_flag =>
      rw [put_eq_of_get cb f v old_flag h1 h2]
      refine ⟨hs, ?_, ?_, hr⟩
      · simpa using hd
      · simpa using hb

theorem wfState_drainOp {T : Type} (cb : CircularBuffer T) (k : Nat)
    (h : wfState cb) : wfState (drainOp cb k).1 := by
  obtain ⟨hs, hd, hb, hr⟩ := h
  unfold drainOp CircularBuffer.iter
  obtain ⟨hb1, hr1⟩ := iterLoop_lengths cb.size cb.max_read cb.seqno 0 cb.buffer cb.read_priv
  refine ⟨hs, ?_, ?_, ?_⟩
  · rw [nextOut_data_length]
    exact hd
  · dsimp only
    rw [hb1]
    exact hb
  · dsimp only
    rw [hr1]
    exact hr

theorem wfState_applyOp {T : Type} (cb : CircularBuffer T) (op : Op T)
    (h : wfState cb) : wfState (applyOp cb op) := by
  cases op with
  | put f => exact wfState_put cb f h
  | drain k => exact wfState_drainOp cb k h

theorem wfState_runOps {T : Type} :
    ∀ (ops : List (Op T)) (cb : CircularBuffer T),
      wfState cb → wfState (runOps cb ops)
  | [], _, h => h
  | op :: ops, cb, h =>
    wfState_runOps ops (applyOp cb op) (wfState_applyOp cb op h)

/-! ### Item ids yielded by drains -/

theorem put_fields {T : Type} (cb : CircularBuffer T) (f : Option T → Option T) :
    (cb.put f).1.max_read = cb.max_read ∧ (cb.put f).1.size = cb.size ∧
      cb.seqno ≤ (cb.put f).1.seqno ∧ (cb.put f).1.seqno ≤ cb.seqno + 1 := by
  cases h1 : cb.data[cb.write_tmp]? with
  | none =>
    rw [put_eq_dodgy1 cb f h1]
    exact ⟨rfl, rfl, le_refl _, Nat.le_succ _⟩
  | some v =>
    cases h2 : cb.buffer[cb.seqno % cb.size]? with
    | none =>
      rw [put_eq_dodgy2 cb f v h1 h2]
      exact ⟨rfl, rfl, Nat.le_succ _, le_refl _⟩
    | some old_flag =>
      rw [put_eq_of_get cb f v old_flag h1 h2]
      exact ⟨rfl, rfl, Nat.le_succ _, le_refl _⟩

theorem drainOp_fields {T : Type} (cb : CircularBuffer T) (k : Nat) :
    (drainOp cb k).1.seqno = cb.seqno ∧ (drainOp cb k).1.max_read = cb.seqno ∧
      (drainOp cb k).1.size = cb.size :=
  ⟨rfl, rfl, rfl⟩

theorem next_start_count {T : Type} (it : CircularBufferIterator T) (h : 0 < it.count) :
    (it.next).2.count = it.count - 1 ∧ (it.next).2.start = it.start + 1 := by
  unfold CircularBufferIterator.next
  rw [if_pos h]
  exact ⟨rfl, rfl⟩

theorem nextOut_ids {T : Type} :
    ∀ (k : Nat) (it : CircularBufferIterator T),
      (nextOut k it).2.map Prod.fst
        = (List.range (min k it.count)).map (it.start + ·)
  | 0, it => by simp [nextOut]
  | k + 1, it => by
    unfold nextOut
    cases hid : it.next_id with
    | none =>
      have hc : it.count = 0 := by
        unfold CircularBufferIterator.next_id at hid
        by_cases h : 0 < it.count
        · rw [if_pos h] at hid
          cases hid
        · omega
      simp [hc]
    | some i =>
      have hc : 0 < it.count := by
        unfold CircularBufferIterator.next_id at hid
        by_cases h : 0 < it.count
        · exact h
        · rw [if_neg h] at hid
          cases hid
      have hi : i = it.start := by
        unfold CircularBufferIterator.next_id at hid
        rw [if_pos hc] at hid
        cases hid
        rfl
      obtain ⟨hcn, hsn⟩ := next_start_count it hc
      dsimp only
      rw [List.map_cons, nextOut_ids k it.next.2]
      simp only [hcn, hsn, hi]
      have hmin : min (k + 1) it.count = min k (it.count - 1) + 1 := by omega
      rw [hmin, List.range_succ_eq_map, List.map_cons, List.map_map]
      refine List.cons_eq_cons.mpr ⟨by omega, ?_⟩
      apply List.map_congr_left
      intro j hj
      simp only [Function.comp_apply, Nat.succ_eq_add_one]
      omega

theorem drainOp_ids_eq {T : Type} (cb : CircularBuffer T) (k : Nat) :
    (drainOp cb k).2
      = (List.range (min k (cb.iter).2.count)).map ((cb.iter).2.start + ·) := by
  unfold drainOp
  exact nextOut_ids k (cb.iter).2

theorem drainOp_ids_bound {T : Type} (cb : CircularBuffer T) (k : Nat) :
    ∀ i ∈ (drainOp cb k).2, cb.max_read ≤ i ∧ i < cb.seqno := by
  intro i hi
  rw [drainOp_ids_eq] at hi
  simp only [List.mem_map, List.mem_range] at hi
  obtain ⟨j, hj, rfl⟩ := hi
  obtain ⟨hsum, hmono, hbound, hstart⟩ :=
    iterLoop_spec cb.size cb.max_read cb.seqno 0 cb.buffer cb.read_priv
  have hcnt : (cb.iter).2.count
      = (iterLoop cb.size cb.max_read cb.seqno 0 cb.buffer cb.read_priv).2.1 := rfl
  have hst : (cb.iter).2.start
      = (iterLoop cb.size cb.max_read cb.seqno 0 cb.buffer cb.read_priv).1 := rfl
  rw [hcnt] at hj
  rw [hst]
  have h0 : 0 < (iterLoop cb.size cb.max_read cb.seqno 0 cb.buffer cb.read_priv).2.1 := by
    omega
  have := hstart h0
  omega

theorem drainOp_ids_nodup {T : Type} (cb : CircularBuffer T) (k : Nat) :
    (drainOp cb k).2.Nodup := by
  rw [drainOp_ids_eq]
  exact (List.nodup_range _).map (add_right_injective _)

theorem runIds_bound_nodup {T : Type} :
    ∀ (ops : List (Op T)) (cb : CircularBuffer T),
      cb.max_read ≤ cb.seqno →
      (∀ i ∈ runIds cb ops, cb.max_read ≤ i) ∧ (runIds cb ops).Nodup := by
  intro ops
  induction ops with
  | nil =>
    intro cb h
    refine ⟨?_, ?_⟩
    · intro i hi
      simp [runIds] at hi
    · simp [runIds]
  | cons op ops ih =>
    intro cb h
    cases op with
    | put f =>
      obtain ⟨hmr, hsz, hs1, hs2⟩ := put_fields cb f
      obtain ⟨ihb, ihn⟩ := ih (cb.put f).1 (by omega)
      refine ⟨?_, ?_⟩
      · intro i hi
        simp only [runIds] at hi
        have h2 := ihb i hi
        omega
      · simp only [runIds]
        exact ihn
    | drain k =>
      obtain ⟨hse, hmr, hsz⟩ := drainOp_fields cb k
      obtain ⟨ihb, ihn⟩ := ih (drainOp cb k).1 (by omega)
      refine ⟨?_, ?_⟩
      · intro i hi
        simp only [runIds, List.mem_append] at hi
        rcases hi with hi | hi
        · exact (drainOp_ids_bound cb k i hi).1
        · have h2 := ihb i hi
          omega
      · simp only [runIds]
        refine List.Nodup.append (drainOp_ids_nodup cb k) ihn ?_
        intro a ha hb
        have h1 := (drainOp_ids_bound cb k a ha).2
        have h2 := ihb a hb
        omega

/-! ### Values yielded by a cursor -/

theorem nextOut_vals {T : Type} :
    ∀ (k : Nat) (it : CircularBufferIterator T),
      it.count = k → k ≤ it.revpos.length → (it.revpos.take k).Nodup →
      (nextOut k it).2 = (List.range k).map
        (fun j => (it.start + j, it.data[it.revpos[k - 1 - j]?.getD 0]?.getD none))
  | 0, it, hck, hlen, hnd => by simp [nextOut]
  | k + 1, it, hck, hlen, hnd => by
    have hc : 0 < it.count := by omega
    have hid : it.next_id = some it.start := by
      unfold CircularBufferIterator.next_id
      rw [if_pos hc]
    have hkr : k < it.revpos.length := by omega
    have hpos : it.revpos[it.count - 1]?.getD 0 = it.revpos[k] := by
      rw [hck]
      simp [List.getElem?_eq_getElem hkr]
    have hnext : it.next = (it.data[it.revpos[k]]?.getD none,
        { it with count := it.count - 1, start := it.start + 1,
                  data := it.data.set (it.revpos[k]) none }) := by
      unfold CircularBufferIterator.next
      rw [if_pos hc]
      dsimp only
      rw [hpos]
    have hfst : it.next.1 = it.data[it.revpos[k]]?.getD none := by rw [hnext]
    have hst : it.next.2.start = it.start + 1 := by rw [hnext]
    have hdt : it.next.2.data = it.data.set (it.revpos[k]) none := by rw [hnext]
    have hrv : it.next.2.revpos = it.revpos := by rw [hnext]
    have hck1 : it.next.2.count = k := by
      rw [hnext]
      dsimp only
      omega
    have hlen1 : k ≤ it.next.2.revpos.length := by
      rw [hrv]
      omega
    have hnd1 : (it.next.2.revpos.take k).Nodup := by
      rw [hrv]
      exact (List.take_sublist_take_left _ (Nat.le_succ k)).nodup hnd
    unfold nextOut
    rw [hid]
    dsimp only
    rw [nextOut_vals k it.next.2 hck1 hlen1 hnd1, hfst, hst, hdt, hrv]
    rw [List.range_succ_eq_map, List.map_cons, List.map_map]
    refine List.cons_eq_cons.mpr ⟨?_, ?_⟩
    · have h1 : k + 1 - 1 - 0 = k := by omega
      rw [h1, List.getElem?_eq_getElem hkr, Option.getD_some]
      simp
    · apply List.map_congr_left
      intro j hj
      have hjk : j < k := List.mem_range.mp hj
      simp only [Function.comp_apply, Nat.succ_eq_add_one]
      have h2 : k + 1 - 1 - (j + 1) = k - 1 - j := by omega
      rw [h2]
      have hq : k - 1 - j < it.revpos.length := by omega
      have hne : it.revpos[k] ≠ it.revpos[k - 1 - j]?.getD 0 := by
        rw [List.getElem?_eq_getElem hq, Option.getD_some]
        intro he
        have htk : k < (it.revpos.take (k + 1)).length := by
          rw [List.length_take]
          omega
        have htq : k - 1 - j < (it.revpos.take (k + 1)).length := by
          rw [List.length_take]
          omega
        have hinj := List.nodup_iff_injective_getElem.mp hnd
        have heq : (it.revpos.take (k + 1))[(⟨k, htk⟩ : Fin _).1]
            = (it.revpos.take (k + 1))[(⟨k - 1 - j, htq⟩ : Fin _).1] := by
          simp only [List.getElem_take]
          exact he
        have hfe := hinj heq
        have hcontr : k = k - 1 - j := congrArg Fin.val hfe
        omega
      rw [List.getElem?_set_ne hne]
      have h3 : it.start + 1 + j = it.start + (j + 1) := by omega
      rw [h3]

/-! ## Claim theorems -/

/-- Claim C1: for every reachable quiescent state of a ring (any sequence of
completed `put` calls, `iter` calls and cursor `next` calls starting from
`new`), the producer scratch index `write_tmp`, the consumer's private
indices `read_priv`, and the slot indices stored in the flag words of
`buffer` form a partition of the pool index set `{0, …, 2*size}`: every one
of the `2*size+1` pool cells is referenced exactly once. -/
theorem spsc_partition_invariant (T : Type) (n : Nat) (ops : List (Op T)) :
    partitionInv (runOps (CircularBuffer.new T n) ops) :=
  partition_runOps ops _ (partition_new T n)

/-- Claim C2: every call to `iter` returns a cursor with `count ≤ size`,
`start + count = seq_now` (the sequence number observed at the start), and
its half-open id range `[start, start + count)` contained in
`[prev, seq_now)` where `prev` is `max_read` before the call. -/
theorem spsc_drain_window_contract {T : Type} (cb : CircularBuffer T) :
    (cb.iter).2.count ≤ cb.size ∧
    (cb.iter).2.start + (cb.iter).2.count = cb.seqno ∧
    (∀ i : Nat, (cb.iter).2.start ≤ i → i < (cb.iter).2.start + (cb.iter).2.count →
      cb.max_read ≤ i ∧ i < cb.seqno) := by
  obtain ⟨hsum, hmono, hbound, hstart⟩ :=
    iterLoop_spec cb.size cb.max_read cb.seqno 0 cb.buffer cb.read_priv
  have hcnt : (cb.iter).2.count
      = (iterLoop cb.size cb.max_read cb.seqno 0 cb.buffer cb.read_priv).2.1 := rfl
  have hst : (cb.iter).2.start
      = (iterLoop cb.size cb.max_read cb.seqno 0 cb.buffer cb.read_priv).1 := rfl
  refine ⟨?_, ?_, ?_⟩
  · rw [hcnt]
    exact hbound (Nat.zero_le _)
  · rw [hcnt, hst]
    omega
  · intro i h1 h2
    rw [hst] at h1
    rw [hst, hcnt] at h2
    have h0 : 0 < (iterLoop cb.size cb.max_read cb.seqno 0 cb.buffer cb.read_priv).2.1 := by
      omega
    have h3 := hstart h0
    omega

/-- Claim C3: whatever the writer callback does to the scratch cell, `put` on
a state whose scratch index is in bounds (as in every reachable state)
advances `seqno` by exactly one and returns its pre-increment value, and no
operation ever decreases `seqno`. -/
theorem spsc_put_seqno_contract {T : Type} (cb : CircularBuffer T)
    (f : Option T → Option T) (h : cb.write_tmp < cb.data.length) :
    (cb.put f).1.seqno = cb.seqno + 1 ∧ (cb.put f).2 = cb.seqno ∧
    (∀ op : Op T, cb.seqno ≤ (applyOp cb op).seqno) := by
  have hv : cb.data[cb.write_tmp]? = some cb.data[cb.write_tmp] :=
    List.getElem?_eq_getElem h
  refine ⟨?_, ?_, ?_⟩
  · cases h2 : cb.buffer[cb.seqno % cb.size]? with
    | none => rw [put_eq_dodgy2 cb f _ hv h2]
    | some old_flag => rw [put_eq_of_get cb f _ old_flag hv h2]
  · cases h2 : cb.buffer[cb.seqno % cb.size]? with
    | none => rw [put_eq_dodgy2 cb f _ hv h2]
    | some old_flag => rw [put_eq_of_get cb f _ old_flag hv h2]
  · intro op
    cases op with
    | put g => exact (put_fields cb g).2.2.1
    | drain k =>
      show cb.seqno ≤ (drainOp cb k).1.seqno
      rw [(drainOp_fields cb k).1]

/-- Claim C3 witness: on a fresh ring of capacity 2 a first `put` returns id
0 and leaves `seqno = 1`. -/
theorem spsc_put_seqno_contract_witness :
    ((CircularBuffer.new Nat 2).put (fun _ => some 7)).1.seqno
        = (CircularBuffer.new Nat 2).seqno + 1 ∧
    ((CircularBuffer.new Nat 2).put (fun _ => some 7)).2
        = (CircularBuffer.new Nat 2).seqno := by
  have h := spsc_put_seqno_contract (CircularBuffer.new Nat 2)
    (fun _ => some 7) (by decide)
  exact ⟨h.1, h.2.1⟩

/-- Claim C4: across the lifetime of one receiver, no item id is ever
yielded twice — the ids delivered by the drains of any operation sequence
starting from a fresh ring are pairwise distinct. -/
theorem spsc_no_duplicate_delivery (T : Type) (n : Nat) (ops : List (Op T)) :
    (runIds (CircularBuffer.new T n) ops).Nodup :=
  (runIds_bound_nodup ops (CircularBuffer.new T n) (Nat.le_refl 0)).2

/-- Claim C2 witness: after publishing ids 0,1,2 on a capacity-2 ring the
drain cursor covers exactly the window, and id 1 lies in it. -/
theorem spsc_drain_window_contract_witness :
    ((runOps (CircularBuffer.new Nat 2)
        [Op.put (fun _ => some 10), Op.put (fun _ => some 11),
         Op.put (fun _ => some 12)]).iter).2.count
      ≤ (runOps (CircularBuffer.new Nat 2)
        [Op.put (fun _ => some 10), Op.put (fun _ => some 11),
         Op.put (fun _ => some 12)]).size ∧
    ((runOps (CircularBuffer.new Nat 2)
        [Op.put (fun _ => some 10), Op.put (fun _ => some 11),
         Op.put (fun _ => some 12)]).max_read ≤ 1 ∧
      1 < (runOps (CircularBuffer.new Nat 2)
        [Op.put (fun _ => some 10), Op.put (fun _ => some 11),
         Op.put (fun _ => some 12)]).seqno) := by
  have h := spsc_drain_window_contract (runOps (CircularBuffer.new Nat 2)
    [Op.put (fun _ => some 10), Op.put (fun _ => some 11),
     Op.put (fun _ => some 12)])
  exact ⟨h.1, h.2.2 1 (by decide) (by decide)⟩

/-- Claim C5 counterexample: on a capacity-1 ring, publish id 0 and then
publish id 1 without draining; the second `put` evicts the undrained item 1
into the scratch cell, so the pool cell at `write_tmp` is `some 1`, not
empty.  This refutes "after every completed put the scratch cell is empty". -/
theorem spsc_scratch_empty_after_put_cex :
    (runOps (CircularBuffer.new Nat 1)
        [Op.put (fun _ => some 1), Op.put (fun _ => some 2)]).data[
      (runOps (CircularBuffer.new Nat 1)
        [Op.put (fun _ => some 1), Op.put (fun _ => some 2)]).write_tmp]?
      = some (some 1) ∧
    ¬ ((runOps (CircularBuffer.new Nat 1)
        [Op.put (fun _ => some 1), Op.put (fun _ => some 2)]).data[
      (runOps (CircularBuffer.new Nat 1)
        [Op.put (fun _ => some 1), Op.put (fun _ => some 2)]).write_tmp]?
      = some none) := by
  refine ⟨by decide, by decide⟩

/-- Claim C5 amended: after every completed `put` (with scratch index and
flag word in bounds and the flag's slot distinct from the scratch, as in
every reachable state), the pool cell at the new `write_tmp` holds exactly
what the ring slot taken from `flags[seqno % size]` held before the publish:
empty when that slot's item had been drained, and the evicted
not-yet-drained item otherwise. -/
theorem spsc_scratch_after_put_amended {T : Type} (cb : CircularBuffer T)
    (f : Option T → Option T) (v : Option T) (old_flag : Nat)
    (h1 : cb.data[cb.write_tmp]? = some v)
    (h2 : cb.buffer[cb.seqno % cb.size]? = some old_flag)
    (h3 : old_flag >>> 16 ≠ cb.write_tmp) :
    (cb.put f).1.data[(cb.put f).1.write_tmp]? = cb.data[old_flag >>> 16]? := by
  rw [put_eq_of_get cb f v old_flag h1 h2]
  dsimp only
  exact List.getElem?_set_ne (Ne.symm h3)

/-- Claim C5 amended witness: on a capacity-1 ring after one `put`, the next
`put` pulls ring slot 0 (holding the undrained item `some 1`) into scratch. -/
theorem spsc_scratch_after_put_amended_witness :
    (((CircularBuffer.new Nat 1).put (fun _ => some 1)).1.put
        (fun _ => some 2)).1.data[
      (((CircularBuffer.new Nat 1).put (fun _ => some 1)).1.put
        (fun _ => some 2)).1.write_tmp]?
      = ((CircularBuffer.new Nat 1).put (fun _ => some 1)).1.data[0 >>> 16]? :=
  spsc_scratch_after_put_amended
    ((CircularBuffer.new Nat 1).put (fun _ => some 1)).1
    (fun _ => some 2) none 0 (by decide) (by decide) (by decide)

/-- Claim C6: a cursor with `count > 0` answers `next` by decrementing
`count`, incrementing `start`, moving the value out of
`data[revpos[count-1]]` (leaving that cell empty) and returning it; a cursor
with `count = 0` returns `none` and changes nothing; and driving the cursor
to exhaustion yields the captured cells in reverse `revpos` order with
consecutive increasing item ids, i.e. oldest first. -/
theorem spsc_cursor_next_spec {T : Type} (it : CircularBufferIterator T)
    (hlen : it.count ≤ it.revpos.length)
    (hnd : (it.revpos.take it.count).Nodup) :
    (it.count = 0 → it.next = (none, it)) ∧
    (0 < it.count → it.next = (it.data[it.revpos[it.count - 1]?.getD 0]?.getD none,
      { it with count := it.count - 1, start := it.start + 1,
                data := it.data.set (it.revpos[it.count - 1]?.getD 0) none })) ∧
    (nextOut it.count it).2 = (List.range it.count).map
      (fun j => (it.start + j,
        it.data[it.revpos[it.count - 1 - j]?.getD 0]?.getD none)) := by
  refine ⟨?_, ?_, ?_⟩
  · intro h0
    unfold CircularBufferIterator.next
    rw [if_neg (by omega)]
  · intro hc
    unfold CircularBufferIterator.next
    rw [if_pos hc]
  · exact nextOut_vals it.count it rfl hlen hnd

/-- Claim C6 witness: a concrete two-item cursor yields its captured cells
oldest-first with ids 5 then 6. -/
theorem spsc_cursor_next_spec_witness :
    (nextOut 2 (⟨[some 10, some 20, some 30], [2, 0], 5, 2⟩ :
        CircularBufferIterator Nat)).2
      = [(5, some 10), (6, some 30)] := by
  have h := spsc_cursor_next_spec
    (⟨[some 10, some 20, some 30], [2, 0], 5, 2⟩ : CircularBufferIterator Nat)
    (by decide) (by decide)
  exact h.2.2.trans (by decide)

/-- Claim C8: the flag update in `put` is a single atomic exchange — in the
sequential embedding the CAS retry loop, started from the freshly loaded
flag value, succeeds on its very first iteration for any fuel, storing the
new flag word and recovering the old slot index exactly as a single swap
would; consequently `put` updates the flag array by one `set` and completes
with the single `seqno` increment. -/
theorem spsc_put_cas_single_swap {T : Type} (cb : CircularBuffer T)
    (f : Option T → Option T) (v : Option T) (old_flag : Nat)
    (h1 : cb.data[cb.write_tmp]? = some v)
    (h2 : cb.buffer[cb.seqno % cb.size]? = some old_flag) :
    (∀ fuel : Nat, 0 < fuel →
      putFlagLoop fuel old_flag old_flag ((cb.write_tmp <<< 16) + (cb.seqno &&& 0xffff))
        = some ((cb.write_tmp <<< 16) + (cb.seqno &&& 0xffff), old_flag >>> 16, 1)) ∧
    (cb.put f).1.buffer
      = cb.buffer.set (cb.seqno % cb.size)
          ((cb.write_tmp <<< 16) + (cb.seqno &&& 0xffff)) ∧
    (cb.put f).1.write_tmp = old_flag >>> 16 ∧
    (cb.put f).1.seqno = cb.seqno + 1 := by
  refine ⟨fun fuel hf => putFlagLoop_first_try fuel _ _ hf, ?_, ?_, ?_⟩
  · rw [put_eq_of_get cb f v old_flag h1 h2]
  · rw [put_eq_of_get cb f v old_flag h1 h2]
  · rw [put_eq_of_get cb f v old_flag h1 h2]

/-- Claim C8 witness: on a fresh capacity-2 ring the CAS loop commits in one
iteration and `put` swaps scratch slot 0 into flag word 0. -/
theorem spsc_put_cas_single_swap_witness :
    putFlagLoop 3 65536 65536
        (((CircularBuffer.new Nat 2).write_tmp <<< 16)
          + ((CircularBuffer.new Nat 2).seqno &&& 0xffff))
      = some ((((CircularBuffer.new Nat 2).write_tmp <<< 16)
          + ((CircularBuffer.new Nat 2).seqno &&& 0xffff)), 65536 >>> 16, 1) ∧
    ((CircularBuffer.new Nat 2).put (fun _ => some 5)).1.write_tmp
      = 65536 >>> 16 := by
  have h := spsc_put_cas_single_swap (CircularBuffer.new Nat 2)
    (fun _ => some 5) none 65536 (by decide) (by decide)
  exact ⟨h.1 3 (by decide), h.2.2.1⟩

/-- Claim C9: constructing the ring with requested capacity 0 yields
capacity 1; a requested capacity that is a multiple of `64*1024 = 2^16`
(the generation-tag space) is bumped to `n + 1`; any other requested
capacity is stored unchanged. -/
theorem spsc_new_capacity_coercion (T : Type) (s : Nat) :
    (CircularBuffer.new T 0).size = 1 ∧
    (s % (64 * 1024) = 0 → (CircularBuffer.new T s).size = s + 1) ∧
    (s % (64 * 1024) ≠ 0 → (CircularBuffer.new T s).size = s) := by
  have hsize : (CircularBuffer.new T s).size
      = if s % (64 * 1024) = 0 ∨ s = 0 then s + 1 else s := rfl
  refine ⟨rfl, ?_, ?_⟩
  · intro h
    rw [hsize, if_pos (Or.inl h)]
  · intro h
    rw [hsize, if_neg (by omega)]

/-- Claim C9 witness: capacity 65536 (a multiple of `64*1024`) is bumped to
65537, and capacity 5 is stored unchanged. -/
theorem spsc_new_capacity_coercion_witness :
    (CircularBuffer.new Nat 65536).size = 65536 + 1 ∧
    (CircularBuffer.new Nat 5).size = 5 :=
  ⟨(spsc_new_capacity_coercion Nat 65536).2.1 (by decide),
   (spsc_new_capacity_coercion Nat 5).2.2 (by decide)⟩

/-- Claim C10: in every reachable state, the indices used by `put` and
`iter` are in bounds — the scratch lookup `data[write_tmp]`, every flag
lookup `buffer[s % size]` (covering `seqno % size` in `put` and
`(seqno-1) % size` in `iter`), and every private-index lookup
`read_priv[count]` with `count < size` all succeed — so the four defensive
"dodgy thing" fallback branches are unreachable. -/
theorem spsc_indexing_safe (T : Type) (n : Nat) (ops : List (Op T)) :
    ((runOps (CircularBuffer.new T n) ops).data[
        (runOps (CircularBuffer.new T n) ops).write_tmp]?).isSome = true ∧
    (∀ s : Nat, ((runOps (CircularBuffer.new T n) ops).buffer[
        s % (runOps (CircularBuffer.new T n) ops).size]?).isSome = true) ∧
    (∀ c : Nat, c < (runOps (CircularBuffer.new T n) ops).size →
      ((runOps (CircularBuffer.new T n) ops).read_priv[c]?).isSome = true) := by
  obtain ⟨hs, hd, hb, hr⟩ := wfState_runOps ops _ (wfState_new T n)
  have hpart := partition_runOps ops _ (partition_new T n)
  unfold partitionInv at hpart
  have hwt : (runOps (CircularBuffer.new T n) ops).write_tmp
      < 2 * (runOps (CircularBuffer.new T n) ops).size + 1 := by
    have hm : (runOps (CircularBuffer.new T n) ops).write_tmp
        ∈ ({(runOps (CircularBuffer.new T n) ops).write_tmp} : Multiset Nat)
          + ↑(runOps (CircularBuffer.new T n) ops).read_priv
          + slots (runOps (CircularBuffer.new T n) ops).buffer := by
      rw [Multiset.mem_add]
      exact Or.inl (by rw [Multiset.mem_add]; exact Or.inl (Multiset.mem_singleton_self _))
    rw [hpart] at hm
    exact Multiset.mem_range.mp hm
  refine ⟨?_, ?_, ?_⟩
  · rw [List.getElem?_eq_getElem (by omega)]
    rfl
  · intro s
    rw [List.getElem?_eq_getElem (by rw [hb]; exact Nat.mod_lt s hs)]
    rfl
  · intro c hc
    rw [List.getElem?_eq_getElem (by omega)]
    rfl

/-- Claim C10 witness: on a fresh capacity-2 ring, flag lookup at `5 % size`
and private-index lookup at 1 both succeed. -/
theorem spsc_indexing_safe_witness :
    ((runOps (CircularBuffer.new Nat 2) []).buffer[
        5 % (runOps (CircularBuffer.new Nat 2) []).size]?).isSome = true ∧
    ((runOps (CircularBuffer.new Nat 2) []).read_priv[1]?).isSome = true := by
  have h := spsc_indexing_safe Nat 2 []
  exact ⟨h.2.1 5, h.2.2 1 (by decide)⟩

/-- Claim C7: `pour value` on a ring whose scratch cell is empty (the state
`pour` itself maintains) never hits the defensive abort; it publishes the
value through `put`, returns the id that `put` returned, hands the caller
exactly the value the publish left in the scratch cell (the evicted item, if
any), reports `Overflowed` precisely when such a value exists and `Poured`
otherwise, and leaves the scratch cell empty. -/
theorem spsc_pour_spec {T : Type} (cb : CircularBuffer T) (value : Option T)
    (h : cb.data[cb.write_tmp]? = some none)
    (hw : (cb.put (fun _ => value)).1.write_tmp
      < (cb.put (fun _ => value)).1.data.length) :
    ∃ out : (PourResult × Nat) × CircularBuffer T × Option T,
      pour value cb = Except.ok out ∧
      out.1.2 = (cb.put (fun _ => value)).2 ∧
      out.2.2 = (cb.put (fun _ => value)).1.data[
        (cb.put (fun _ => value)).1.write_tmp]?.getD none ∧
      (out.1.1 = PourResult.Overflowed ↔ out.2.2.isSome = true) ∧
      out.2.1.data[out.2.1.write_tmp]? = some none := by
  unfold pour
  rw [h]
  dsimp only
  rw [if_neg (show ¬((none : Option T).isSome = true) by simp)]
  unfold CircularBuffer.tmp
  dsimp only
  have hscr : (((cb.put (fun _ => value)).1.data.set
      (cb.put (fun _ => value)).1.write_tmp none)[
        (cb.put (fun _ => value)).1.write_tmp]? : Option (Option T))
      = some none :=
    List.getElem?_set_self hw
  cases hcase : ((cb.put (fun _ => value)).1.data[
      (cb.put (fun _ => value)).1.write_tmp]?.getD none).isSome with
  | false =>
    rw [if_neg (by simp [hcase])]
    refine ⟨_, rfl, rfl, rfl, ?_, hscr⟩
    constructor
    · intro hcontr
      cases hcontr
    · intro hcontr
      rw [hcase] at hcontr
      cases hcontr
  | true =>
    rw [if_pos (by simp [hcase])]
    refine ⟨_, rfl, rfl, rfl, ?_, hscr⟩
    constructor
    · intro _
      exact hcase
    · intro _
      rfl

/-- Claim C7 witness: pouring two items into a capacity-1 ring reports
`Poured` for the first and `Overflowed` (handing back the evicted item) for
the second. -/
theorem spsc_pour_spec_witness :
    ∃ out : (PourResult × Nat) × CircularBuffer Nat × Option Nat,
      pour (some 1) (CircularBuffer.new Nat 1) = Except.ok out ∧
      out.1.2 = ((CircularBuffer.new Nat 1).put (fun _ => some 1)).2 ∧
      out.2.2 = ((CircularBuffer.new Nat 1).put (fun _ => some 1)).1.data[
        ((CircularBuffer.new Nat 1).put (fun _ => some 1)).1.write_tmp]?.getD none ∧
      (out.1.1 = PourResult.Overflowed ↔ out.2.2.isSome = true) ∧
      out.2.1.data[out.2.1.write_tmp]? = some none :=
  spsc_pour_spec (CircularBuffer.new Nat 1) (some 1) (by decide) (by decide)

end Lossyq